import Mathlib

/-!
Shallow embedding of the `chippy` CHIP-8 emulator core, translated from
`src/chip8.rs` (the coherent `Chip8` implementation; the `src/chip8/`
module mirrors the same opcode semantics byte for byte in `opcodes.rs` /
`cpu.rs`), plus the layered `Memory` / `Rom` address space from
`src/chip8/mem.rs`.

Modelling conventions:

* Rust `u8` arithmetic is `Nat` with explicit `% 256` exactly where the
  source wraps (`as u8` casts, `wrapping_sub`); `usize` registers (`i`,
  `pc`, `sp`) are plain `Nat`.
* The fixed-size Rust buffers (`mem: Vec<u8>` of 4096 bytes, the 64×32
  `display` of 2048 bytes, `v_reg: [u8; 16]`, `stack: [usize; 16]`,
  `keypad: [bool; 16]`) are embedded as their index-to-value maps
  `Nat → Nat` / `Nat → Bool`; the semantic domain of each map is the
  source array's index range, and every bounds check the source performs
  on a fallible access that a claim depends on (the stack in `RET`/`CALL`,
  the reserved region in `Memory::write_byte`) is kept explicit, with
  panics embedded as `none`.
* `rand::random::<u8>()` in `Cxkk` is embedded as an explicit `rnd`
  argument threaded into the cycle.
-/

namespace Chippy

/-- Pointwise update of an index-to-value map, the embedding of `buf[k] = v`. -/
def setf (f : Nat → Nat) (k v : Nat) : Nat → Nat :=
  fun j => if j = k then v else f j

/-- The `Chip8` struct of `src/chip8.rs` (registers, stack, timers, keypad,
display and the dirty/beep outputs). -/
structure Chip8 where
  mem : Nat → Nat
  stack : Nat → Nat
  v_reg : Nat → Nat
  i : Nat
  delay_t : Nat
  sound_t : Nat
  pc : Nat
  sp : Nat
  keypad : Nat → Bool
  display : Nat → Nat
  draw : Bool
  beep : Bool

/-- The `ProgramCounter` control-flow effect returned by every opcode handler. -/
inductive ProgramCounter
  | Next
  | Skip
  | Address (a : Nat)

/-- `ProgramCounter::skip_if` from the source. -/
def ProgramCounter.skip_if (cond : Bool) : ProgramCounter :=
  if cond then .Skip else .Next

/-- The decoded form of the dispatch `match` in `execute_instruction`:
one constructor per arm, carrying the fields (`x`, `y`, `kk`, `nnn`, `n`)
that arm passes to its handler; `unknown` is the `_ => ProgramCounter::Next`
fallback arm. -/
inductive Instr
  | CLS
  | RET
  | JP_addr (nnn : Nat)
  | CALL_addr (nnn : Nat)
  | SE_Vx_kk (x kk : Nat)
  | SNE_Vx_kk (x kk : Nat)
  | SE_Vx_Vy (x y : Nat)
  | LD_Vx_kk (x kk : Nat)
  | ADD_Vx_kk (x kk : Nat)
  | LD_Vx_Vy (x y : Nat)
  | OR_Vx_Vy (x y : Nat)
  | AND_Vx_Vy (x y : Nat)
  | XOR_Vx_Vy (x y : Nat)
  | ADD_Vx_Vy (x y : Nat)
  | SUB_Vx_Vy (x y : Nat)
  | SHR_Vx (x : Nat)
  | SUBN_Vx_Vy (x y : Nat)
  | SHL_Vx (x : Nat)
  | SNE_Vx_Vy (x y : Nat)
  | LD_I_addr (nnn : Nat)
  | JP_V0_addr (nnn : Nat)
  | RND_Vx_kk (x kk : Nat)
  | DRW_Vx_Vy_n (x y n : Nat)
  | SKP_Vx (x : Nat)
  | SKNP_Vx (x : Nat)
  | LD_Vx_DT (x : Nat)
  | LD_Vx_K (x : Nat)
  | LD_DT_Vx (x : Nat)
  | LD_ST_Vx (x : Nat)
  | ADD_I_Vx (x : Nat)
  | LD_F_Vx (x : Nat)
  | LD_B_Vx (x : Nat)
  | LD_I_Vx (x : Nat)
  | LD_Vx_I (x : Nat)
  | unknown
deriving DecidableEq

/-- The nibble split and pattern dispatch of `execute_instruction`
(`src/chip8.rs:125-175`), arm for arm and in the source's order. -/
def decode (opcode : Nat) : Instr :=
  let a := (opcode &&& 0xF000) >>> 12
  let x := (opcode &&& 0x0F00) >>> 8
  let y := (opcode &&& 0x00F0) >>> 4
  let d := opcode &&& 0x000F
  let nnn := opcode &&& 0xFFF
  let kk := opcode &&& 0xFF
  match a, x, y, d with
  | 0x0, 0x0, 0xE, 0x0 => .CLS
  | 0x0, 0x0, 0xE, 0xE => .RET
  | 0x1, _, _, _ => .JP_addr nnn
  | 0x2, _, _, _ => .CALL_addr nnn
  | 0x3, _, _, _ => .SE_Vx_kk x kk
  | 0x4, _, _, _ => .SNE_Vx_kk x kk
  | 0x5, _, _, 0x0 => .SE_Vx_Vy x y
  | 0x6, _, _, _ => .LD_Vx_kk x kk
  | 0x7, _, _, _ => .ADD_Vx_kk x kk
  | 0x8, _, _, 0x0 => .LD_Vx_Vy x y
  | 0x8, _, _, 0x1 => .OR_Vx_Vy x y
  | 0x8, _, _, 0x2 => .AND_Vx_Vy x y
  | 0x8, _, _, 0x3 => .XOR_Vx_Vy x y
  | 0x8, _, _, 0x4 => .ADD_Vx_Vy x y
  | 0x8, _, _, 0x5 => .SUB_Vx_Vy x y
  | 0x8, _, _, 0x6 => .SHR_Vx x
  | 0x8, _, _, 0x7 => .SUBN_Vx_Vy x y
  | 0x8, _, _, 0xE => .SHL_Vx x
  | 0x9, _, _, 0x0 => .SNE_Vx_Vy x y
  | 0xA, _, _, _ => .LD_I_addr nnn
  | 0xB, _, _, _ => .JP_V0_addr nnn
  | 0xC, _, _, _ => .RND_Vx_kk x kk
  | 0xD, _, _, _ => .DRW_Vx_Vy_n x y d
  | 0xE, _, 0x9, 0xE => .SKP_Vx x
  | 0xE, _, 0xA, 0x1 => .SKNP_Vx x
  | 0xF, _, 0x0, 0x7 => .LD_Vx_DT x
  | 0xF, _, 0x0, 0xA => .LD_Vx_K x
  | 0xF, _, 0x1, 0x5 => .LD_DT_Vx x
  | 0xF, _, 0x1, 0x8 => .LD_ST_Vx x
  | 0xF, _, 0x1, 0xE => .ADD_I_Vx x
  | 0xF, _, 0x2, 0x9 => .LD_F_Vx x
  | 0xF, _, 0x3, 0x3 => .LD_B_Vx x
  | 0xF, _, 0x5, 0x5 => .LD_I_Vx x
  | 0xF, _, 0x6, 0x5 => .LD_Vx_I x
  | _, _, _, _ => .unknown

/-- `execute_CLS` (00E0): zero every display byte, mark dirty. -/
def execute_CLS (s : Chip8) : Chip8 × ProgramCounter :=
  ({ s with display := fun _ => 0, draw := true }, .Next)

/-- `execute_RET` (00EE): `sp -= 1` (panic on underflow, embedded as `none`),
then read `stack[sp]` (panic out of the 16-entry array, embedded as `none`). -/
def execute_RET (s : Chip8) : Option (Chip8 × ProgramCounter) :=
  if s.sp = 0 then none
  else if s.sp - 1 < 16 then
    some ({ s with sp := s.sp - 1 }, .Address (s.stack (s.sp - 1)))
  else none

/-- `execute_JP_addr` (1nnn). -/
def execute_JP_addr (s : Chip8) (nnn : Nat) : Chip8 × ProgramCounter :=
  (s, .Address nnn)

/-- `execute_CALL_addr` (2nnn): `stack[sp] = pc + 2` (panic out of the
16-entry array, embedded as `none`), `sp += 1`. -/
def execute_CALL_addr (s : Chip8) (nnn : Nat) : Option (Chip8 × ProgramCounter) :=
  if s.sp < 16 then
    some ({ s with stack := setf s.stack s.sp (s.pc + 2), sp := s.sp + 1 },
          .Address nnn)
  else none

/-- `execute_SE_Vx_kk` (3xkk). -/
def execute_SE_Vx_kk (s : Chip8) (vx kk : Nat) : Chip8 × ProgramCounter :=
  (s, .skip_if (s.v_reg vx == kk))

/-- `execute_SNE_Vx_kk` (4xkk). -/
def execute_SNE_Vx_kk (s : Chip8) (vx kk : Nat) : Chip8 × ProgramCounter :=
  (s, .skip_if (s.v_reg vx != kk))

/-- `execute_SE_Vx_Vy` (5xy0). -/
def execute_SE_Vx_Vy (s : Chip8) (vx vy : Nat) : Chip8 × ProgramCounter :=
  (s, .skip_if (s.v_reg vx == s.v_reg vy))

/-- `execute_LD_Vx_kk` (6xkk). -/
def execute_LD_Vx_kk (s : Chip8) (vx kk : Nat) : Chip8 × ProgramCounter :=
  ({ s with v_reg := setf s.v_reg vx kk }, .Next)

/-- `execute_ADD_Vx_kk` (7xkk): the sum is formed in `u16` and truncated
back with `as u8`. -/
def execute_ADD_Vx_kk (s : Chip8) (vx kk : Nat) : Chip8 × ProgramCounter :=
  ({ s with v_reg := setf s.v_reg vx ((s.v_reg vx + kk) % 256) }, .Next)

/-- `execute_LD_Vx_Vy` (8xy0). -/
def execute_LD_Vx_Vy (s : Chip8) (vx vy : Nat) : Chip8 × ProgramCounter :=
  ({ s with v_reg := setf s.v_reg vx (s.v_reg vy) }, .Next)

/-- `execute_OR_Vx_Vy` (8xy1). -/
def execute_OR_Vx_Vy (s : Chip8) (vx vy : Nat) : Chip8 × ProgramCounter :=
  ({ s with v_reg := setf s.v_reg vx (s.v_reg vx ||| s.v_reg vy) }, .Next)

/-- `execute_AND_Vx_Vy` (8xy2). -/
def execute_AND_Vx_Vy (s : Chip8) (vx vy : Nat) : Chip8 × ProgramCounter :=
  ({ s with v_reg := setf s.v_reg vx (s.v_reg vx &&& s.v_reg vy) }, .Next)

/-- `execute_XOR_Vx_Vy` (8xy3). -/
def execute_XOR_Vx_Vy (s : Chip8) (vx vy : Nat) : Chip8 × ProgramCounter :=
  ({ s with v_reg := setf s.v_reg vx (s.v_reg vx ^^^ s.v_reg vy) }, .Next)

/-- `execute_ADD_Vx_Vy` (8xy4): `Vx` is written first (truncated `u16` sum),
then `VF` is set from the untruncated sum — so `VF` wins when `x = 0xF`,
exactly as in the source. -/
def execute_ADD_Vx_Vy (s : Chip8) (vx vy : Nat) : Chip8 × ProgramCounter :=
  let result := s.v_reg vx + s.v_reg vy
  let r1 := setf s.v_reg vx (result % 256)
  ({ s with v_reg := setf r1 15 (if 0xFF < result then 1 else 0) }, .Next)

/-- `execute_SUB_Vx_Vy` (8xy5): `VF` is written first from the strict
comparison `v_reg[vx] > v_reg[vy]`, then `Vx` gets `wrapping_sub`, reading
the registers after the flag write — exactly the source's order. -/
def execute_SUB_Vx_Vy (s : Chip8) (vx vy : Nat) : Chip8 × ProgramCounter :=
  let r1 := setf s.v_reg 15 (if s.v_reg vy < s.v_reg vx then 1 else 0)
  ({ s with v_reg := setf r1 vx ((r1 vx + 256 - r1 vy) % 256) }, .Next)

/-- `execute_SHR_Vx` (8xy6): `VF = Vx & 1` first, then `Vx >>= 1`. -/
def execute_SHR_Vx (s : Chip8) (vx : Nat) : Chip8 × ProgramCounter :=
  let r1 := setf s.v_reg 15 (s.v_reg vx &&& 0x1)
  ({ s with v_reg := setf r1 vx (r1 vx >>> 1) }, .Next)

/-- `execute_SUBN_Vx_Vy` (8xy7): `VF` from `v_reg[vy] > v_reg[vx]` first,
then `Vx = Vy.wrapping_sub(Vx)`. -/
def execute_SUBN_Vx_Vy (s : Chip8) (vx vy : Nat) : Chip8 × ProgramCounter :=
  let r1 := setf s.v_reg 15 (if s.v_reg vx < s.v_reg vy then 1 else 0)
  ({ s with v_reg := setf r1 vx ((r1 vy + 256 - r1 vx) % 256) }, .Next)

/-- `execute_SHL_Vx` (8xyE): `VF = (Vx & 0x80) >> 7` first, then `Vx <<= 1`
(truncating `u8` shift). -/
def execute_SHL_Vx (s : Chip8) (vx : Nat) : Chip8 × ProgramCounter :=
  let r1 := setf s.v_reg 15 ((s.v_reg vx &&& 0x80) >>> 7)
  ({ s with v_reg := setf r1 vx ((r1 vx <<< 1) % 256) }, .Next)

/-- `execute_SNE_Vx_Vy` (9xy0). -/
def execute_SNE_Vx_Vy (s : Chip8) (vx vy : Nat) : Chip8 × ProgramCounter :=
  (s, .skip_if (s.v_reg vx != s.v_reg vy))

/-- `execute_LD_I_addr` (Annn). -/
def execute_LD_I_addr (s : Chip8) (nnn : Nat) : Chip8 × ProgramCounter :=
  ({ s with i := nnn }, .Next)

/-- `execute_JP_V0_addr` (Bnnn). -/
def execute_JP_V0_addr (s : Chip8) (nnn : Nat) : Chip8 × ProgramCounter :=
  (s, .Address (nnn + s.v_reg 0))

/-- `execute_RND_Vx_kk` (Cxkk); the random byte is the explicit `rnd`. -/
def execute_RND_Vx_kk (s : Chip8) (vx kk rnd : Nat) : Chip8 × ProgramCounter :=
  ({ s with v_reg := setf s.v_reg vx (kk &&& rnd) }, .Next)

/-- The body of the nested draw loops of `execute_DRW_Vx_Vy_n` for one
`(row, col)` cell, acting on the `(v_reg, display)` pair: compute the
wrapped destination, read the sprite bit, accumulate the collision into
`VF` from the pre-write pixel, then XOR the pixel — statement for
statement as in the source (coordinates re-read `v_reg` each iteration). -/
def drawCell (mem : Nat → Nat) (i vx vy row col : Nat)
    (a : (Nat → Nat) × (Nat → Nat)) : (Nat → Nat) × (Nat → Nat) :=
  let dx := (col + a.1 vx) % 64
  let dy := (row + a.1 vy) % 32
  let color := mem (i + row) >>> (7 - col) &&& 1
  (setf a.1 15 (a.1 15 ||| (color &&& a.2 (dy * 64 + dx))),
   setf a.2 (dy * 64 + dx) (a.2 (dy * 64 + dx) ^^^ color))

/-- `execute_DRW_Vx_Vy_n` (Dxyn): `VF = 0`, then the row/column loops,
then mark dirty. -/
def execute_DRW_Vx_Vy_n (s : Chip8) (vx vy n : Nat) : Chip8 × ProgramCounter :=
  let a := (List.range n).foldl
    (fun acc row =>
      (List.range 8).foldl (fun acc2 col => drawCell s.mem s.i vx vy row col acc2) acc)
    (setf s.v_reg 15 0, s.display)
  ({ s with v_reg := a.1, display := a.2, draw := true }, .Next)

/-- `execute_SKP_Vx` (Ex9E). -/
def execute_SKP_Vx (s : Chip8) (vx : Nat) : Chip8 × ProgramCounter :=
  (s, .skip_if (s.keypad (s.v_reg vx)))

/-- `execute_SKNP_Vx` (ExA1). -/
def execute_SKNP_Vx (s : Chip8) (vx : Nat) : Chip8 × ProgramCounter :=
  (s, .skip_if (!s.keypad (s.v_reg vx)))

/-- `execute_LD_Vx_DT` (Fx07). -/
def execute_LD_Vx_DT (s : Chip8) (vx : Nat) : Chip8 × ProgramCounter :=
  ({ s with v_reg := setf s.v_reg vx s.delay_t }, .Next)

/-- The linear scan of `keypad.iter().position(|&k| k)`: first index
`start ≤ j < start + fuel` whose key is down. -/
def keyScan (kp : Nat → Bool) (start fuel : Nat) : Option Nat :=
  match fuel with
  | 0 => none
  | f + 1 => if kp start then some start else keyScan kp (start + 1) f

/-- `is_key_pressed`: position of the first pressed key among the 16. -/
def is_key_pressed (s : Chip8) : Option Nat :=
  keyScan s.keypad 0 16

/-- `execute_LD_Vx_K` (Fx0A): block by returning `Address(pc)` when no key
is down, otherwise store the first pressed index. -/
def execute_LD_Vx_K (s : Chip8) (vx : Nat) : Chip8 × ProgramCounter :=
  match is_key_pressed s with
  | some idx => ({ s with v_reg := setf s.v_reg vx idx }, .Next)
  | none => (s, .Address s.pc)

/-- `execute_LD_DT_Vx` (Fx15). -/
def execute_LD_DT_Vx (s : Chip8) (vx : Nat) : Chip8 × ProgramCounter :=
  ({ s with delay_t := s.v_reg vx }, .Next)

/-- `execute_LD_ST_Vx` (Fx18). -/
def execute_LD_ST_Vx (s : Chip8) (vx : Nat) : Chip8 × ProgramCounter :=
  ({ s with sound_t := s.v_reg vx }, .Next)

/-- `execute_ADD_I_Vx` (Fx1E): `v = i + Vx`; `VF = (v > 0xF00) as u8`;
`i = v` — note the source's threshold is `0xF00`. -/
def execute_ADD_I_Vx (s : Chip8) (vx : Nat) : Chip8 × ProgramCounter :=
  let v := s.i + s.v_reg vx
  ({ s with v_reg := setf s.v_reg 15 (if 0xF00 < v then 1 else 0), i := v }, .Next)

/-- `execute_LD_F_Vx` (Fx29): `i = Vx * SPRITE_SIZE`. -/
def execute_LD_F_Vx (s : Chip8) (vx : Nat) : Chip8 × ProgramCounter :=
  ({ s with i := s.v_reg vx * 5 }, .Next)

/-- `execute_LD_B_Vx` (Fx33): BCD digits of `Vx` to `mem[i..i+2]`. -/
def execute_LD_B_Vx (s : Chip8) (vx : Nat) : Chip8 × ProgramCounter :=
  let value_x := s.v_reg vx
  let m1 := setf s.mem s.i (value_x / 100)
  let m2 := setf m1 (s.i + 1) (value_x % 100 / 10)
  ({ s with mem := setf m2 (s.i + 2) (value_x % 10) }, .Next)

/-- `execute_LD_I_Vx` (Fx55): store `V0..Vx` at `mem[i..]`. -/
def execute_LD_I_Vx (s : Chip8) (vx : Nat) : Chip8 × ProgramCounter :=
  ({ s with
      mem := (List.range (vx + 1)).foldl (fun m j => setf m (s.i + j) (s.v_reg j)) s.mem },
   .Next)

/-- `execute_LD_Vx_I` (Fx65): load `V0..Vx` from `mem[i..]`. -/
def execute_LD_Vx_I (s : Chip8) (vx : Nat) : Chip8 × ProgramCounter :=
  ({ s with
      v_reg := (List.range (vx + 1)).foldl (fun r j => setf r j (s.mem (s.i + j))) s.v_reg },
   .Next)

/-- The final `match new_pc` of `execute_instruction`: resolve the
control-flow effect against the (handler-updated) state's `pc`. -/
def withPC (t : Chip8 × ProgramCounter) : Chip8 × Nat :=
  (t.1, match t.2 with
        | .Next => t.1.pc + 2
        | .Skip => t.1.pc + 4
        | .Address a => a)

/-- `execute_instruction`: dispatch the decoded opcode to its handler and
resolve the returned `ProgramCounter` into the new `pc` value. -/
def execute_instruction (rnd opcode : Nat) (s : Chip8) : Option (Chip8 × Nat) :=
  match decode opcode with
  | .CLS => some (withPC (execute_CLS s))
  | .RET => (execute_RET s).map withPC
  | .JP_addr nnn => some (withPC (execute_JP_addr s nnn))
  | .CALL_addr nnn => (execute_CALL_addr s nnn).map withPC
  | .SE_Vx_kk x kk => some (withPC (execute_SE_Vx_kk s x kk))
  | .SNE_Vx_kk x kk => some (withPC (execute_SNE_Vx_kk s x kk))
  | .SE_Vx_Vy x y => some (withPC (execute_SE_Vx_Vy s x y))
  | .LD_Vx_kk x kk => some (withPC (execute_LD_Vx_kk s x kk))
  | .ADD_Vx_kk x kk => some (withPC (execute_ADD_Vx_kk s x kk))
  | .LD_Vx_Vy x y => some (withPC (execute_LD_Vx_Vy s x y))
  | .OR_Vx_Vy x y => some (withPC (execute_OR_Vx_Vy s x y))
  | .AND_Vx_Vy x y => some (withPC (execute_AND_Vx_Vy s x y))
  | .XOR_Vx_Vy x y => some (withPC (execute_XOR_Vx_Vy s x y))
  | .ADD_Vx_Vy x y => some (withPC (execute_ADD_Vx_Vy s x y))
  | .SUB_Vx_Vy x y => some (withPC (execute_SUB_Vx_Vy s x y))
  | .SHR_Vx x => some (withPC (execute_SHR_Vx s x))
  | .SUBN_Vx_Vy x y => some (withPC (execute_SUBN_Vx_Vy s x y))
  | .SHL_Vx x => some (withPC (execute_SHL_Vx s x))
  | .SNE_Vx_Vy x y => some (withPC (execute_SNE_Vx_Vy s x y))
  | .LD_I_addr nnn => some (withPC (execute_LD_I_addr s nnn))
  | .JP_V0_addr nnn => some (withPC (execute_JP_V0_addr s nnn))
  | .RND_Vx_kk x kk => some (withPC (execute_RND_Vx_kk s x kk rnd))
  | .DRW_Vx_Vy_n x y n => some (withPC (execute_DRW_Vx_Vy_n s x y n))
  | .SKP_Vx x => some (withPC (execute_SKP_Vx s x))
  | .SKNP_Vx x => some (withPC (execute_SKNP_Vx s x))
  | .LD_Vx_DT x => some (withPC (execute_LD_Vx_DT s x))
  | .LD_Vx_K x => some (withPC (execute_LD_Vx_K s x))
  | .LD_DT_Vx x => some (withPC (execute_LD_DT_Vx s x))
  | .LD_ST_Vx x => some (withPC (execute_LD_ST_Vx s x))
  | .ADD_I_Vx x => some (withPC (execute_ADD_I_Vx s x))
  | .LD_F_Vx x => some (withPC (execute_LD_F_Vx s x))
  | .LD_B_Vx x => some (withPC (execute_LD_B_Vx s x))
  | .LD_I_Vx x => some (withPC (execute_LD_I_Vx s x))
  | .LD_Vx_I x => some (withPC (execute_LD_Vx_I s x))
  | .unknown => some (withPC (s, .Next))

/-- `fetch_opcode`: big-endian 16-bit read at `pc`. -/
def fetch_opcode (s : Chip8) : Nat :=
  (s.mem s.pc <<< 8) ||| s.mem (s.pc + 1)

/-- The end-of-cycle timer block of `fetch_decode_execute`: conditionally
decrement `delay_t` and `sound_t`, then set `beep = sound_t > 0` from the
decremented sound timer. -/
def tickTimers (s : Chip8) : Chip8 :=
  { s with
    delay_t := if 0 < s.delay_t then s.delay_t - 1 else s.delay_t,
    sound_t := if 0 < s.sound_t then s.sound_t - 1 else s.sound_t,
    beep := decide (0 < (if 0 < s.sound_t then s.sound_t - 1 else s.sound_t)) }

/-- `fetch_decode_execute`: fetch, dispatch, commit the returned `pc`,
then tick the timers and refresh `beep`. -/
def fetch_decode_execute (rnd : Nat) (s : Chip8) : Option Chip8 :=
  match execute_instruction rnd (fetch_opcode s) s with
  | none => none
  | some (s1, npc) => some (tickTimers { s1 with pc := npc })

/-! ### Proof-side views of the draw loop

`drawIdx`, `drawColor` and `drawPairs` name the destination index, the
sprite bit and the `(row, col)` iteration order of the Dxyn loops as pure
functions of the pre-draw register values, for reasoning about
`execute_DRW_Vx_Vy_n`; `maskOf` and `orMask` are the accumulated XOR mask
and collision accumulator of a pass. -/

/-- Destination display index of draw cell `p = (row, col)` when `Vx`
holds `x0` and `Vy` holds `y0`: `((row + y0) % 32) * 64 + ((col + x0) % 64)`. -/
def drawIdx (x0 y0 : Nat) (p : Nat × Nat) : Nat :=
  ((p.1 + y0) % 32) * 64 + ((p.2 + x0) % 64)

/-- Sprite bit of draw cell `p = (row, col)`: bit `7 - col` of `mem[i + row]`. -/
def drawColor (mem : Nat → Nat) (i : Nat) (p : Nat × Nat) : Nat :=
  mem (i + p.1) >>> (7 - p.2) &&& 1

/-- The `(row, col)` pairs visited by the Dxyn loops, in iteration order. -/
def drawPairs (n : Nat) : List (Nat × Nat) :=
  (List.range n).flatMap (fun r => (List.range 8).map (fun c => (r, c)))

/-- XOR of the sprite bits a list of draw cells lands on display index `k`. -/
def maskOf (mem : Nat → Nat) (i x0 y0 : Nat) : List (Nat × Nat) → Nat → Nat
  | [], _ => 0
  | p :: ps, k =>
      (if drawIdx x0 y0 p = k then drawColor mem i p else 0) ^^^ maskOf mem i x0 y0 ps k

/-- Collision accumulator of one draw pass over display `d`: OR of
`sprite bit AND pre-draw pixel` over the listed cells. -/
def orMask (mem : Nat → Nat) (i x0 y0 : Nat) (d : Nat → Nat) : List (Nat × Nat) → Nat
  | [] => 0
  | p :: ps =>
      (drawColor mem i p &&& d (drawIdx x0 y0 p)) ||| orMask mem i x0 y0 d ps

/-! ### The layered address space of `src/chip8/mem.rs`

`Rom` is the writable 3584-byte program region (`Rom([u8; ROM_SIZE])`);
`Memory` composes the read-only 512-byte `ReservedMemory` with it,
dispatching on `0x0..=0x1FF`. `ReservedMemory::write_byte` panics
unconditionally ("read-only memory"), embedded as `none`; out-of-bounds
array indexing in `Rom::write_byte` likewise. -/

/-- The `Rom` newtype of `src/chip8/mem.rs`: 3584 writable bytes. -/
structure Rom where
  data : Nat → Nat

/-- `Rom::write_byte`: plain array store, out-of-bounds is a panic (`none`). -/
def Rom.write_byte (r : Rom) (value addr : Nat) : Option Rom :=
  if addr < 3584 then some ⟨setf r.data addr value⟩ else none

/-- The `Memory` mapper of `src/chip8/mem.rs`, with its reserved region held
as the 512-entry byte map and the `Rom` backing used by `new_chip8`. -/
structure Memory where
  reserved : Nat → Nat
  rom : Rom

/-- `Memory::write_byte`: addresses `0x0..=0x1FF` go to
`ReservedMemory::write_byte`, which is an unconditional panic (`none`);
all other addresses go to the `Rom` at `addr - 512`. -/
def Memory.write_byte (m : Memory) (value addr : Nat) : Option Memory :=
  if addr ≤ 0x1FF then none
  else (m.rom.write_byte value (addr - 512)).map (fun r => { m with rom := r })

/-- Modelled from the spec: the repository's final `Cpu` revision owns a
`Memory` and routes every CPU-initiated store through `Memory::write_byte`
(src only carries an older `cpu.rs` with a flat `Vec<u8>`, while
`src/chip8/mod.rs` constructs `Cpu::new(Box::new(Memory::new(...)))` and
its tests read through `cpu.mem.read_byte`); this is the `Fx33` BCD store
issued through that interface, three `write_byte` calls at `I`, `I+1`,
`I+2` with the hundreds, tens and units digits. -/
def cpu_store_BCD (m : Memory) (i v : Nat) : Option Memory :=
  (m.write_byte (v / 100) i).bind fun m1 =>
    (m1.write_byte (v % 100 / 10) (i + 1)).bind fun m2 =>
      m2.write_byte (v % 10) (i + 2)

/-! ### Concrete states used by witnesses and counterexamples -/

/-- Base state: zeroed memory and registers, `pc` at the ROM offset. -/
def s0 : Chip8 :=
  { mem := fun _ => 0, stack := fun _ => 0, v_reg := fun _ => 0, i := 0,
    delay_t := 0, sound_t := 0, pc := 0x200, sp := 0,
    keypad := fun _ => false, display := fun _ => 0, draw := false, beep := false }

/-- State with opcode `0x8125` (SUB V1, V2) at `pc` and `V1 = V2 = 5`. -/
def sSub : Chip8 :=
  { s0 with
    mem := fun k => if k = 0x200 then 0x81 else if k = 0x201 then 0x25 else 0,
    v_reg := fun k => if k = 1 then 5 else if k = 2 then 5 else 0 }

/-- State with opcode `0xF01E` (ADD I, V0) at `pc`, `I = 0xF01`, `V0 = 0`. -/
def sAddI : Chip8 :=
  { s0 with
    mem := fun k => if k = 0x200 then 0xF0 else if k = 0x201 then 0x1E else 0,
    i := 0xF01 }

/-- State with opcode `0x00E0` (CLS) at `pc` and a lit pixel. -/
def sCls : Chip8 :=
  { s0 with
    mem := fun k => if k = 0x201 then 0xE0 else 0,
    display := fun _ => 1 }

/-- State for the draw counterexample: every display pixel lit, sprite
rows of `0xFF` at `I = 0x300`. -/
def sDrwCex : Chip8 :=
  { s0 with mem := fun _ => 0xFF, display := fun _ => 1, i := 0x300 }

/-- State for the draw witness: a clear display, sprite rows of `0xFF`
at `I = 0x300`. -/
def sDrw : Chip8 :=
  { s0 with mem := fun _ => 0xFF, i := 0x300 }

/-- State with opcode `0xF20A` (LD V2, K) at `pc` and only key 3 pressed. -/
def sKey : Chip8 :=
  { s0 with
    mem := fun k => if k = 0x200 then 0xF2 else if k = 0x201 then 0x0A else 0,
    keypad := fun j => j == 3 }

/-- State with opcode `0xF20A` (LD V2, K) at `pc` and no key pressed. -/
def sKeyNone : Chip8 :=
  { s0 with
    mem := fun k => if k = 0x200 then 0xF2 else if k = 0x201 then 0x0A else 0 }

/-- State with opcode `0xF533` (LD B, V5) at `pc`, `V5 = 157`, `I = 0x300`. -/
def sBcd : Chip8 :=
  { s0 with
    mem := fun k => if k = 0x200 then 0xF5 else if k = 0x201 then 0x33 else 0,
    v_reg := fun k => if k = 5 then 157 else 0,
    i := 0x300 }

/-- State with opcode `0x00EE` (RET) at `pc` and an empty stack. -/
def sRet : Chip8 :=
  { s0 with mem := fun k => if k = 0x201 then 0xEE else 0 }

/-- State with opcode `0x2345` (CALL 0x345) at `pc` and a full stack. -/
def sCall : Chip8 :=
  { s0 with
    mem := fun k => if k = 0x200 then 0x23 else if k = 0x201 then 0x45 else 0,
    sp := 16 }

/-- Composed memory with zeroed reserved region and ROM. -/
def mem0 : Memory :=
  { reserved := fun _ => 0, rom := ⟨fun _ => 0⟩ }

/-! ### Helper lemmas -/

theorem setf_same (f : Nat → Nat) (k v : Nat) : setf f k v k = v := by
  simp [setf]

theorem setf_other (f : Nat → Nat) (k v j : Nat) (h : j ≠ k) : setf f k v j = f j := by
  simp [setf, h]

theorem tickTimers_v_reg (s : Chip8) : (tickTimers s).v_reg = s.v_reg := rfl

theorem tickTimers_i (s : Chip8) : (tickTimers s).i = s.i := rfl

theorem tickTimers_mem (s : Chip8) : (tickTimers s).mem = s.mem := rfl

theorem tickTimers_display (s : Chip8) : (tickTimers s).display = s.display := rfl

theorem tickTimers_sp (s : Chip8) : (tickTimers s).sp = s.sp := rfl

theorem withPC_fst (t : Chip8 × ProgramCounter) : (withPC t).1 = t.1 := rfl

theorem keyScan_eq_none (kp : Nat → Bool) (fuel : Nat) :
    ∀ start, (∀ j, start ≤ j → j < start + fuel → kp j = false) →
      keyScan kp start fuel = none := by
  induction fuel with
  | zero => intro start _; rfl
  | succ f ih =>
      intro start h
      have h0 : kp start = false := h start le_rfl (by omega)
      simp only [keyScan, h0, Bool.false_eq_true, if_false]
      exact ih (start + 1) (fun j hj1 hj2 => h j (by omega) (by omega))

theorem keyScan_eq_some (kp : Nat → Bool) (fuel : Nat) :
    ∀ start idx, start ≤ idx → idx < start + fuel → kp idx = true →
      (∀ j, start ≤ j → j < idx → kp j = false) →
      keyScan kp start fuel = some idx := by
  induction fuel with
  | zero => intro start idx h1 h2 _ _; omega
  | succ f ih =>
      intro start idx h1 h2 h3 h4
      by_cases hs : kp start = true
      · have : idx = start := by
          by_contra hne
          have : kp start = false := h4 start le_rfl (by omega)
          simp [this] at hs
        simp only [keyScan, hs, if_true, this]
      · have hs' : kp start = false := by simpa using hs
        have hi : start ≠ idx := fun he => by rw [he] at hs'; simp [h3] at hs'
        simp only [keyScan, hs', Bool.false_eq_true, if_false]
        exact ih (start + 1) idx (by omega) (by omega) h3
          (fun j hj1 hj2 => h4 j (by omega) hj2)

theorem foldl_flatMap {α β γ : Type} (l : List α) (g : α → List β) (f : γ → β → γ) (a : γ) :
    (l.flatMap g).foldl f a = l.foldl (fun acc x => (g x).foldl f acc) a := by
  induction l generalizing a with
  | nil => rfl
  | cons x xs ih => simp only [List.flatMap_cons, List.foldl_append, List.foldl_cons, ih]

theorem drawFold_eq (mem : Nat → Nat) (i vx vy n : Nat) (a0 : (Nat → Nat) × (Nat → Nat)) :
    (List.range n).foldl
      (fun acc row => (List.range 8).foldl (fun acc2 col => drawCell mem i vx vy row col acc2) acc)
      a0
    = (drawPairs n).foldl (fun acc p => drawCell mem i vx vy p.1 p.2 acc) a0 := by
  rw [drawPairs, foldl_flatMap]
  simp only [List.foldl_map]

theorem drawPairs_mem (n : Nat) (p : Nat × Nat) :
    p ∈ drawPairs n ↔ p.1 < n ∧ p.2 < 8 := by
  obtain ⟨r, c⟩ := p
  simp only [drawPairs, List.mem_flatMap, List.mem_map, List.mem_range]
  constructor
  · rintro ⟨r', hr', c', hc', he⟩
    injection he with h1 h2
    subst h1; subst h2
    exact ⟨hr', hc'⟩
  · rintro ⟨hr, hc⟩
    exact ⟨r, hr, c, hc, rfl⟩

theorem drawIdx_inj (x0 y0 n : Nat) (hn : n ≤ 32) (p q : Nat × Nat)
    (hp : p ∈ drawPairs n) (hq : q ∈ drawPairs n)
    (he : drawIdx x0 y0 p = drawIdx x0 y0 q) : p = q := by
  rw [drawPairs_mem] at hp hq
  unfold drawIdx at he
  have h1 : p.1 = q.1 ∧ p.2 = q.2 := by omega
  exact Prod.ext h1.1 h1.2

theorem drawPairs_nodup (n : Nat) : (drawPairs n).Nodup := by
  rw [drawPairs, List.nodup_flatMap]
  constructor
  · intro r _
    exact (List.nodup_range 8).map (fun c c' h => by injection h)
  · have : List.Pairwise (· < ·) (List.range n) := List.pairwise_lt_range n
    refine this.imp ?_
    intro r r' hlt a ha ha'
    simp only [List.mem_map, List.mem_range] at ha ha'
    obtain ⟨c, _, rfl⟩ := ha
    obtain ⟨c', _, he⟩ := ha'
    injection he with h1 h2
    omega

theorem drawPairs_pairwise_idx (x0 y0 n : Nat) (hn : n ≤ 32) :
    (drawPairs n).Pairwise (fun p q => drawIdx x0 y0 p ≠ drawIdx x0 y0 q) :=
  (drawPairs_nodup n).imp_of_mem
    (fun hp hq hne he => hne (drawIdx_inj x0 y0 n hn _ _ hp hq he))

theorem drawFold_vreg (mem : Nat → Nat) (i vx vy : Nat) (ps : List (Nat × Nat)) :
    ∀ (a : (Nat → Nat) × (Nat → Nat)) (j : Nat), j ≠ 15 →
      ((ps.foldl (fun acc p => drawCell mem i vx vy p.1 p.2 acc) a).1) j = a.1 j := by
  induction ps with
  | nil => intro a j _; rfl
  | cons p ps ih =>
      intro a j hj
      simp only [List.foldl_cons]
      rw [ih _ j hj]
      exact setf_other _ _ _ _ hj

theorem drawFold_display (mem : Nat → Nat) (i vx vy x0 y0 : Nat)
    (hvx : vx ≠ 15) (hvy : vy ≠ 15) (ps : List (Nat × Nat)) :
    ∀ (a : (Nat → Nat) × (Nat → Nat)), a.1 vx = x0 → a.1 vy = y0 →
      ∀ k, ((ps.foldl (fun acc p => drawCell mem i vx vy p.1 p.2 acc) a).2) k
        = a.2 k ^^^ maskOf mem i x0 y0 ps k := by
  induction ps with
  | nil => intro a _ _ k; simp [maskOf]
  | cons p ps ih =>
      intro a hx0 hy0 k
      simp only [List.foldl_cons]
      have hx1 : (drawCell mem i vx vy p.1 p.2 a).1 vx = x0 := by
        simpa [drawCell, setf_other _ _ _ _ hvx] using hx0
      have hy1 : (drawCell mem i vx vy p.1 p.2 a).1 vy = y0 := by
        simpa [drawCell, setf_other _ _ _ _ hvy] using hy0
      rw [ih _ hx1 hy1 k]
      have hd : (drawCell mem i vx vy p.1 p.2 a).2 k
          = a.2 k ^^^ (if drawIdx x0 y0 p = k then drawColor mem i p else 0) := by
        simp only [drawCell, hx0, hy0, drawIdx, drawColor]
        by_cases hk : k = (p.1 + y0) % 32 * 64 + (p.2 + x0) % 64
        · subst hk
          rw [setf_same, if_pos rfl]
        · rw [setf_other _ _ _ _ hk, if_neg (fun h => hk h.symm), Nat.xor_zero]
      rw [hd, maskOf, Nat.xor_assoc]

theorem orMask_congr (mem : Nat → Nat) (i x0 y0 : Nat) (d d' : Nat → Nat)
    (ps : List (Nat × Nat))
    (h : ∀ p ∈ ps, d' (drawIdx x0 y0 p) = d (drawIdx x0 y0 p)) :
    orMask mem i x0 y0 d' ps = orMask mem i x0 y0 d ps := by
  induction ps with
  | nil => rfl
  | cons p ps ih =>
      simp only [orMask]
      rw [h p (List.mem_cons_self p ps), ih (fun q hq => h q (List.mem_cons_of_mem p hq))]

theorem drawFold_vf (mem : Nat → Nat) (i vx vy x0 y0 : Nat)
    (hvx : vx ≠ 15) (hvy : vy ≠ 15) (ps : List (Nat × Nat))
    (hdist : ps.Pairwise (fun p q => drawIdx x0 y0 p ≠ drawIdx x0 y0 q)) :
    ∀ (a : (Nat → Nat) × (Nat → Nat)), a.1 vx = x0 → a.1 vy = y0 →
      ((ps.foldl (fun acc p => drawCell mem i vx vy p.1 p.2 acc) a).1) 15
        = a.1 15 ||| orMask mem i x0 y0 a.2 ps := by
  induction ps with
  | nil => intro a _ _; simp [orMask]
  | cons p ps ih =>
      intro a hx0 hy0
      simp only [List.foldl_cons]
      have hx1 : (drawCell mem i vx vy p.1 p.2 a).1 vx = x0 := by
        simpa [drawCell, setf_other _ _ _ _ hvx] using hx0
      have hy1 : (drawCell mem i vx vy p.1 p.2 a).1 vy = y0 := by
        simpa [drawCell, setf_other _ _ _ _ hvy] using hy0
      have hpair := List.pairwise_cons.mp hdist
      rw [ih hpair.2 _ hx1 hy1]
      have hvf : (drawCell mem i vx vy p.1 p.2 a).1 15
          = a.1 15 ||| (drawColor mem i p &&& a.2 (drawIdx x0 y0 p)) := by
        simp only [drawCell, hx0, hy0, drawIdx, drawColor]
        rw [setf_same]
      have hdisp : orMask mem i x0 y0 (drawCell mem i vx vy p.1 p.2 a).2 ps
          = orMask mem i x0 y0 a.2 ps := by
        refine orMask_congr mem i x0 y0 a.2 _ ps (fun q hq => ?_)
        have hne : drawIdx x0 y0 q ≠ drawIdx x0 y0 p :=
          fun he => (hpair.1 q hq) he.symm
        simp only [drawCell, hx0, hy0]
        exact setf_other _ _ _ _ (by simpa [drawIdx] using hne)
      rw [hvf, hdisp, orMask, Nat.or_assoc]

theorem maskOf_eq_zero (mem : Nat → Nat) (i x0 y0 k : Nat) (ps : List (Nat × Nat))
    (h : ∀ p ∈ ps, drawIdx x0 y0 p ≠ k) : maskOf mem i x0 y0 ps k = 0 := by
  induction ps with
  | nil => rfl
  | cons p ps ih =>
      simp only [maskOf]
      rw [if_neg (h p (List.mem_cons_self p ps)),
        ih (fun q hq => h q (List.mem_cons_of_mem p hq)), Nat.xor_zero]

theorem maskOf_eq_color (mem : Nat → Nat) (i x0 y0 : Nat) (ps : List (Nat × Nat))
    (hdist : ps.Pairwise (fun p q => drawIdx x0 y0 p ≠ drawIdx x0 y0 q))
    (p : Nat × Nat) (hp : p ∈ ps) :
    maskOf mem i x0 y0 ps (drawIdx x0 y0 p) = drawColor mem i p := by
  induction ps with
  | nil => cases hp
  | cons q ps ih =>
      have hpair := List.pairwise_cons.mp hdist
      rcases List.mem_cons.mp hp with rfl | hmem
      · simp only [maskOf, if_pos rfl]
        rw [maskOf_eq_zero mem i x0 y0 _ ps (fun r hr he => (hpair.1 r hr) he.symm), Nat.xor_zero]
        simp
      · simp only [maskOf]
        rw [if_neg (hpair.1 p hmem), ih hpair.2 hmem, Nat.zero_xor]

theorem drawColor_le_one (mem : Nat → Nat) (i : Nat) (p : Nat × Nat) :
    drawColor mem i p ≤ 1 :=
  Nat.and_le_right

theorem orMask_le_one (mem : Nat → Nat) (i x0 y0 : Nat) (d : Nat → Nat)
    (ps : List (Nat × Nat)) : orMask mem i x0 y0 d ps ≤ 1 := by
  induction ps with
  | nil => exact Nat.zero_le 1
  | cons p ps ih =>
      have h1 : drawColor mem i p &&& d (drawIdx x0 y0 p) ≤ 1 :=
        Nat.le_trans Nat.and_le_left (drawColor_le_one mem i p)
      simp only [orMask]
      generalize drawColor mem i p &&& d (drawIdx x0 y0 p) = t at h1
      generalize orMask mem i x0 y0 d ps = u at ih
      interval_cases t <;> interval_cases u <;> decide

theorem orMask_eq_one_iff (mem : Nat → Nat) (i x0 y0 : Nat) (d : Nat → Nat)
    (ps : List (Nat × Nat)) :
    orMask mem i x0 y0 d ps = 1
      ↔ ∃ p ∈ ps, drawColor mem i p &&& d (drawIdx x0 y0 p) = 1 := by
  induction ps with
  | nil => simp [orMask]
  | cons p ps ih =>
      have h1 : drawColor mem i p &&& d (drawIdx x0 y0 p) ≤ 1 :=
        Nat.le_trans Nat.and_le_left (drawColor_le_one mem i p)
      have h2 := orMask_le_one mem i x0 y0 d ps
      simp only [orMask, List.mem_cons]
      constructor
      · intro h
        have : drawColor mem i p &&& d (drawIdx x0 y0 p) = 1 ∨ orMask mem i x0 y0 d ps = 1 := by
          generalize drawColor mem i p &&& d (drawIdx x0 y0 p) = t at h h1
          generalize orMask mem i x0 y0 d ps = u at h h2
          interval_cases t <;> interval_cases u <;> simp_all
        rcases this with h | h
        · exact ⟨p, Or.inl rfl, h⟩
        · obtain ⟨q, hq, hq1⟩ := ih.mp h
          exact ⟨q, Or.inr hq, hq1⟩
      · rintro ⟨q, hq | hq, hq1⟩
        · subst hq
          rw [hq1]
          generalize orMask mem i x0 y0 d ps = u at h2
          interval_cases u <;> decide
        · rw [ih.mpr ⟨q, hq, hq1⟩]
          generalize drawColor mem i p &&& d (drawIdx x0 y0 p) = t at h1
          interval_cases t <;> decide

theorem bit_and_xor_eq_one (c d : Nat) (hc : c ≤ 1) (hd : d ≤ 1) :
    (c &&& (d ^^^ c) = 1) ↔ (c = 1 ∧ d = 0) := by
  interval_cases c <;> interval_cases d <;> decide

theorem xor_xor_cancel (a b : Nat) : a ^^^ b ^^^ b = a := by
  rw [Nat.xor_assoc, Nat.xor_self, Nat.xor_zero]

theorem DRW_state_spec (s : Chip8) (x y n : Nat)
    (hx : x ≠ 15) (hy : y ≠ 15) (hn : n ≤ 32) :
    (execute_DRW_Vx_Vy_n s x y n).1.mem = s.mem ∧
    (execute_DRW_Vx_Vy_n s x y n).1.i = s.i ∧
    (execute_DRW_Vx_Vy_n s x y n).1.pc = s.pc ∧
    (execute_DRW_Vx_Vy_n s x y n).1.v_reg x = s.v_reg x ∧
    (execute_DRW_Vx_Vy_n s x y n).1.v_reg y = s.v_reg y ∧
    (∀ k, (execute_DRW_Vx_Vy_n s x y n).1.display k
      = s.display k ^^^ maskOf s.mem s.i (s.v_reg x) (s.v_reg y) (drawPairs n) k) ∧
    (execute_DRW_Vx_Vy_n s x y n).1.v_reg 15
      = orMask s.mem s.i (s.v_reg x) (s.v_reg y) s.display (drawPairs n) := by
  have ha0x : (setf s.v_reg 15 0, s.display).1 x = s.v_reg x := setf_other _ _ _ _ hx
  have ha0y : (setf s.v_reg 15 0, s.display).1 y = s.v_reg y := setf_other _ _ _ _ hy
  simp only [execute_DRW_Vx_Vy_n, drawFold_eq]
  refine ⟨trivial, trivial, trivial, ?_, ?_, ?_, ?_⟩
  · rw [drawFold_vreg s.mem s.i x y (drawPairs n) _ x hx]
    exact ha0x
  · rw [drawFold_vreg s.mem s.i x y (drawPairs n) _ y hy]
    exact ha0y
  · intro k
    exact drawFold_display s.mem s.i x y (s.v_reg x) (s.v_reg y) hx hy (drawPairs n)
      _ ha0x ha0y k
  · rw [drawFold_vf s.mem s.i x y (s.v_reg x) (s.v_reg y) hx hy (drawPairs n)
      (drawPairs_pairwise_idx (s.v_reg x) (s.v_reg y) n hn) _ ha0x ha0y]
    show setf s.v_reg 15 0 15 ||| _ = _
    rw [setf_same, Nat.zero_or]

/-! ### Claim theorems -/

/-- C1: the claim states that `8xy5` (with `x ≠ y`, `x ≠ 0xF`) leaves
`Vx = (Vx - Vy) mod 256` and sets `VF = 1` iff the old `Vx ≥ Vy`. The code
instead tests the strict `v_reg[vx] > v_reg[vy]`, so at `V1 = V2 = 5`
(opcode `0x8125`) the executed step leaves `V1 = 0` — the subtraction part
of the claim — but `VF = 0`, where the claim (and the source's own
`VF = NOT borrow` comment) requires `VF = 1`. This theorem evaluates the
embedded step at that failing input. -/
theorem sub_vf_on_equal_operands :
    (fetch_decode_execute 0 sSub).map (fun s => (s.v_reg 1, s.v_reg 15))
      = some (0, 0) := by
  decide

/-- C2 counterexample: the claim "`Fx1E` sets `VF = 1` iff `I + Vx` exceeds
`0xFFF`" fails at `I = 0xF01`, `V0 = 0` (opcode `0xF01E`): the sum `0xF01`
does not exceed `0xFFF`, yet the step sets `VF = 1` (the code compares
against `0xF00`). -/
theorem add_i_carry_threshold_cex :
    (fetch_decode_execute 0 sAddI).map (fun s => (s.i, s.v_reg 15))
      = some (0xF01, 1) := by
  decide

/-- C2 (amended): for every value of `I` and `Vx`, executing opcode `Fx1E`
sets `I` to `I + Vx` and sets `VF` to 1 if and only if the sum `I + Vx`
exceeds `0xF00`, else to 0. -/
theorem add_i_vx_spec (rnd : Nat) (s : Chip8) (x : Nat)
    (hdec : decode (fetch_opcode s) = .ADD_I_Vx x) :
    ∃ s', fetch_decode_execute rnd s = some s' ∧
      s'.i = s.i + s.v_reg x ∧
      s'.v_reg 15 = (if 0xF00 < s.i + s.v_reg x then 1 else 0) := by
  simp only [fetch_decode_execute, execute_instruction, hdec, execute_ADD_I_Vx, withPC]
  exact ⟨_, rfl, by simp [tickTimers], by simp [tickTimers, setf]⟩

/-- C2 witness: `add_i_vx_spec` applied at the concrete state `sAddI`
(opcode `0xF01E`, `I = 0xF01`, `V0 = 0`). -/
theorem add_i_vx_spec_witness :
    ∃ s', fetch_decode_execute 0 sAddI = some s' ∧
      s'.i = sAddI.i + sAddI.v_reg 0 ∧
      s'.v_reg 15 = (if 0xF00 < sAddI.i + sAddI.v_reg 0 then 1 else 0) :=
  add_i_vx_spec 0 sAddI 0 (by decide)

/-- C3: from any state whose fetched opcode is `00E0`, the step clears
every pixel of the 64×32 bitmap (indices `0` to `2047`), sets the
draw-dirty flag, and advances `pc` by 2. -/
theorem cls_clears_display (rnd : Nat) (s : Chip8)
    (hdec : decode (fetch_opcode s) = .CLS) :
    ∃ s', fetch_decode_execute rnd s = some s' ∧
      (∀ k, k < 2048 → s'.display k = 0) ∧ s'.draw = true ∧ s'.pc = s.pc + 2 := by
  simp only [fetch_decode_execute, execute_instruction, hdec, execute_CLS, withPC]
  exact ⟨_, rfl, fun k _ => rfl, rfl, rfl⟩

/-- C3 witness: `cls_clears_display` applied at the concrete state `sCls`
(opcode `0x00E0` at `pc`, display fully lit). -/
theorem cls_clears_display_witness :
    ∃ s', fetch_decode_execute 0 sCls = some s' ∧
      (∀ k, k < 2048 → s'.display k = 0) ∧ s'.draw = true ∧ s'.pc = sCls.pc + 2 :=
  cls_clears_display 0 sCls (by decide)

/-- C4: a fetched opcode that matches none of the 35 documented patterns
(the decoder's `unknown` fallback arm) makes the step advance `pc` by
exactly 2 and leave `V0..VF`, `I`, the stack, the stack pointer, the
memory and the display unchanged; only the end-of-step timer tick (and the
`beep` it recomputes) still occurs. -/
theorem unknown_opcode_noop (rnd : Nat) (s : Chip8)
    (hdec : decode (fetch_opcode s) = .unknown) :
    ∃ s', fetch_decode_execute rnd s = some s' ∧
      s'.pc = s.pc + 2 ∧ s'.v_reg = s.v_reg ∧ s'.i = s.i ∧ s'.stack = s.stack ∧
      s'.sp = s.sp ∧ s'.mem = s.mem ∧ s'.display = s.display ∧
      s'.delay_t = (if 0 < s.delay_t then s.delay_t - 1 else s.delay_t) ∧
      s'.sound_t = (if 0 < s.sound_t then s.sound_t - 1 else s.sound_t) := by
  simp only [fetch_decode_execute, execute_instruction, hdec, withPC]
  exact ⟨_, rfl, rfl, rfl, rfl, rfl, rfl, rfl, rfl, rfl, rfl⟩

/-- C4 witness: `unknown_opcode_noop` applied at `s0`, whose fetched
opcode `0x0000` decodes to no documented instruction. -/
theorem unknown_opcode_noop_witness :
    ∃ s', fetch_decode_execute 0 s0 = some s' ∧
      s'.pc = s0.pc + 2 ∧ s'.v_reg = s0.v_reg ∧ s'.i = s0.i ∧ s'.stack = s0.stack ∧
      s'.sp = s0.sp ∧ s'.mem = s0.mem ∧ s'.display = s0.display ∧
      s'.delay_t = (if 0 < s0.delay_t then s0.delay_t - 1 else s0.delay_t) ∧
      s'.sound_t = (if 0 < s0.sound_t then s0.sound_t - 1 else s0.sound_t) :=
  unknown_opcode_noop 0 s0 (by decide)

/-- C5: whatever instruction the cycle executed (any `execute_instruction`
outcome `s1`), the step finishes by decrementing each timer that is
non-zero at tick time — leaving it untouched, hence still 0, otherwise —
and sets `beep` to true iff the sound timer is still positive after that
decrement. The timer value in question is the one the tick sees, i.e.
after the instruction executed (`Fx15`/`Fx18` may have just reloaded it). -/
theorem step_ticks_timers (rnd : Nat) (s s1 : Chip8) (npc : Nat)
    (h : execute_instruction rnd (fetch_opcode s) s = some (s1, npc)) :
    ∃ s2, fetch_decode_execute rnd s = some s2 ∧
      s2.delay_t = (if 0 < s1.delay_t then s1.delay_t - 1 else s1.delay_t) ∧
      s2.sound_t = (if 0 < s1.sound_t then s1.sound_t - 1 else s1.sound_t) ∧
      (s1.delay_t = 0 → s2.delay_t = 0) ∧
      (s1.sound_t = 0 → s2.sound_t = 0) ∧
      (s2.beep = true ↔ 0 < s2.sound_t) := by
  simp only [fetch_decode_execute, h]
  refine ⟨_, rfl, rfl, rfl, ?_, ?_, ?_⟩
  · intro h0; simp [tickTimers, h0]
  · intro h0; simp [tickTimers, h0]
  · simp [tickTimers]

/-- C5 witness: `step_ticks_timers` applied at `s0`, whose fetched opcode
`0x0000` executes as the no-op fallback. -/
theorem step_ticks_timers_witness :
    ∃ s2, fetch_decode_execute 0 s0 = some s2 ∧
      s2.delay_t = (if 0 < s0.delay_t then s0.delay_t - 1 else s0.delay_t) ∧
      s2.sound_t = (if 0 < s0.sound_t then s0.sound_t - 1 else s0.sound_t) ∧
      (s0.delay_t = 0 → s2.delay_t = 0) ∧
      (s0.sound_t = 0 → s2.sound_t = 0) ∧
      (s2.beep = true ↔ 0 < s2.sound_t) :=
  step_ticks_timers 0 s0 s0 0x202 rfl

/-- C6 counterexample: the claim says the second of two identical `Dxyn`
draws always reports collision (`VF = 1`). At `sDrwCex` (opcode `0xD121`:
sprite row `0xFF` at `I = 0x300`, coordinates `(V1, V2) = (0, 0)`, every
display pixel already lit) the two draws restore the display (pixel 0 is
back to 1), but the second draw yields `VF = 0`: its collision test
`sprite bit AND pixel` sees the pixels the first draw just cleared. -/
theorem drw_double_collision_cex :
    (((execute_instruction 0 0xD121 sDrwCex).bind
        (fun t => execute_instruction 0 0xD121 t.1)).map
      (fun t => (t.1.v_reg 15, t.1.display 0, sDrwCex.display 0))) = some (0, 1, 1) := by
  decide

/-- C6 (amended): for every display state with 0/1 pixels, sprite
(`n ≤ 15` rows at memory `I`) and coordinate registers with `x ≠ 0xF` and
`y ≠ 0xF` (so the draw's own `VF` write cannot move the sprite between the
two executions), executing the same `Dxyn` draw twice in succession with
no other draw in between restores the display to its state before the
first draw, and the second draw sets `VF = 1` if and only if some sprite
bit is 1 at a destination whose pixel was 0 before the first draw. -/
theorem drw_double_roundtrip (rnd rnd' op : Nat) (s : Chip8) (x y n : Nat)
    (hdec : decode op = .DRW_Vx_Vy_n x y n)
    (hx : x ≠ 15) (hy : y ≠ 15) (hn : n ≤ 15)
    (hpix : ∀ k, s.display k ≤ 1) :
    ∃ t1 t2 : Chip8 × Nat,
      execute_instruction rnd op s = some t1 ∧
      execute_instruction rnd' op t1.1 = some t2 ∧
      (∀ k, t2.1.display k = s.display k) ∧
      (t2.1.v_reg 15 = 1 ↔ ∃ r c, r < n ∧ c < 8 ∧
        drawColor s.mem s.i (r, c) = 1 ∧
        s.display (drawIdx (s.v_reg x) (s.v_reg y) (r, c)) = 0) := by
  have hn32 : n ≤ 32 := by omega
  simp only [execute_instruction, hdec]
  refine ⟨withPC (execute_DRW_Vx_Vy_n s x y n),
    withPC (execute_DRW_Vx_Vy_n (withPC (execute_DRW_Vx_Vy_n s x y n)).1 x y n),
    rfl, rfl, ?_, ?_⟩ <;>
    simp only [withPC_fst]
  case _ =>
    obtain ⟨h1mem, h1i, _, h1x, h1y, h1disp, _⟩ := DRW_state_spec s x y n hx hy hn32
    obtain ⟨_, _, _, _, _, h2disp, _⟩ :=
      DRW_state_spec (execute_DRW_Vx_Vy_n s x y n).1 x y n hx hy hn32
    intro k
    rw [h2disp k, h1mem, h1i, h1x, h1y, h1disp k, xor_xor_cancel]
  case _ =>
    obtain ⟨h1mem, h1i, _, h1x, h1y, h1disp, _⟩ := DRW_state_spec s x y n hx hy hn32
    obtain ⟨_, _, _, _, _, _, h2vf⟩ :=
      DRW_state_spec (execute_DRW_Vx_Vy_n s x y n).1 x y n hx hy hn32
    rw [h2vf, h1mem, h1i, h1x, h1y, orMask_eq_one_iff]
    have hpw := drawPairs_pairwise_idx (s.v_reg x) (s.v_reg y) n hn32
    have key : ∀ p ∈ drawPairs n,
        (drawColor s.mem s.i p
            &&& (execute_DRW_Vx_Vy_n s x y n).1.display (drawIdx (s.v_reg x) (s.v_reg y) p) = 1)
          ↔ (drawColor s.mem s.i p = 1 ∧ s.display (drawIdx (s.v_reg x) (s.v_reg y) p) = 0) := by
      intro p hp
      rw [h1disp, maskOf_eq_color s.mem s.i (s.v_reg x) (s.v_reg y) (drawPairs n) hpw p hp]
      exact bit_and_xor_eq_one _ _ (drawColor_le_one s.mem s.i p) (hpix _)
    constructor
    · rintro ⟨p, hp, hone⟩
      obtain ⟨hc1, hd0⟩ := (key p hp).mp hone
      obtain ⟨hr, hc⟩ := (drawPairs_mem n p).mp hp
      exact ⟨p.1, p.2, hr, hc, hc1, hd0⟩
    · rintro ⟨r, c, hr, hc, hc1, hd0⟩
      refine ⟨(r, c), (drawPairs_mem n (r, c)).mpr ⟨hr, hc⟩, ?_⟩
      exact (key (r, c) ((drawPairs_mem n (r, c)).mpr ⟨hr, hc⟩)).mpr ⟨hc1, hd0⟩

/-- C6 witness: `drw_double_roundtrip` applied at `sDrw` (opcode `0xD121`,
sprite row `0xFF` at `I = 0x300`, clear display). -/
theorem drw_double_roundtrip_witness :
    ∃ t1 t2 : Chip8 × Nat,
      execute_instruction 0 0xD121 sDrw = some t1 ∧
      execute_instruction 0 0xD121 t1.1 = some t2 ∧
      (∀ k, t2.1.display k = sDrw.display k) ∧
      (t2.1.v_reg 15 = 1 ↔ ∃ r c, r < 1 ∧ c < 8 ∧
        drawColor sDrw.mem sDrw.i (r, c) = 1 ∧
        sDrw.display (drawIdx (sDrw.v_reg 1) (sDrw.v_reg 2) (r, c)) = 0) :=
  drw_double_roundtrip 0 0 0xD121 sDrw 1 2 1 (by decide) (by decide) (by decide)
    (by decide) (fun _ => Nat.zero_le 1)

/-- C7: when the fetched opcode is `Fx0A`, a step with no key pressed
leaves `pc` and all of `V0..VF` unchanged (the instruction re-executes
next cycle), while a step whose lowest pressed key has index `idx` stores
`idx` in `Vx` and advances `pc` by 2. -/
theorem ld_vx_k_blocks (rnd : Nat) (s : Chip8) (x : Nat)
    (hdec : decode (fetch_opcode s) = .LD_Vx_K x) :
    ((∀ j, j < 16 → s.keypad j = false) →
      ∃ s', fetch_decode_execute rnd s = some s' ∧ s'.pc = s.pc ∧ s'.v_reg = s.v_reg)
    ∧ (∀ idx, idx < 16 → s.keypad idx = true → (∀ j, j < idx → s.keypad j = false) →
      ∃ s', fetch_decode_execute rnd s = some s' ∧ s'.pc = s.pc + 2 ∧ s'.v_reg x = idx) := by
  constructor
  · intro hnone
    have hk : is_key_pressed s = none :=
      keyScan_eq_none s.keypad 16 0 (fun j _ hj => hnone j (by omega))
    simp only [fetch_decode_execute, execute_instruction, hdec, execute_LD_Vx_K, hk, withPC]
    exact ⟨_, rfl, rfl, rfl⟩
  · intro idx hi hkey hmin
    have hk : is_key_pressed s = some idx :=
      keyScan_eq_some s.keypad 16 0 idx (by omega) (by omega) hkey
        (fun j _ hj => hmin j hj)
    simp only [fetch_decode_execute, execute_instruction, hdec, execute_LD_Vx_K, hk, withPC]
    exact ⟨_, rfl, rfl, by simp [tickTimers, setf]⟩

/-- C7 witness: `ld_vx_k_blocks` applied at `sKeyNone` (no key pressed:
`pc` stays put) and at `sKey` (key 3 is the lowest pressed key: `V2 = 3`,
`pc` advances). -/
theorem ld_vx_k_blocks_witness :
    (∃ s', fetch_decode_execute 0 sKeyNone = some s' ∧
      s'.pc = sKeyNone.pc ∧ s'.v_reg = sKeyNone.v_reg)
    ∧ (∃ s', fetch_decode_execute 0 sKey = some s' ∧
      s'.pc = sKey.pc + 2 ∧ s'.v_reg 2 = 3) :=
  ⟨(ld_vx_k_blocks 0 sKeyNone 2 (by decide)).1 (by decide),
   (ld_vx_k_blocks 0 sKey 2 (by decide)).2 3 (by decide) (by decide) (by decide)⟩

/-- C8: when the fetched opcode is `Fx33` and `I`, `I+1`, `I+2` are valid
addresses, the step writes `Vx / 100` to `mem[I]`, `(Vx % 100) / 10` to
`mem[I+1]` and `Vx % 10` to `mem[I+2]`, and advances `pc` by 2. -/
theorem ld_b_vx_bcd (rnd : Nat) (s : Chip8) (x : Nat)
    (hdec : decode (fetch_opcode s) = .LD_B_Vx x) (hi : s.i + 2 ≤ 0xFFF) :
    ∃ s', fetch_decode_execute rnd s = some s' ∧
      s'.mem s.i = s.v_reg x / 100 ∧
      s'.mem (s.i + 1) = s.v_reg x % 100 / 10 ∧
      s'.mem (s.i + 2) = s.v_reg x % 10 ∧
      s'.pc = s.pc + 2 := by
  simp only [fetch_decode_execute, execute_instruction, hdec, execute_LD_B_Vx, withPC]
  refine ⟨_, rfl, ?_, ?_, ?_, ?_⟩ <;> simp [tickTimers, setf]

/-- C8 witness: `ld_b_vx_bcd` applied at `sBcd` (opcode `0xF533`,
`V5 = 157`, `I = 0x300`): the digits written are `(1, 5, 7)`. -/
theorem ld_b_vx_bcd_witness :
    (∃ s', fetch_decode_execute 0 sBcd = some s' ∧
      s'.mem sBcd.i = sBcd.v_reg 5 / 100 ∧
      s'.mem (sBcd.i + 1) = sBcd.v_reg 5 % 100 / 10 ∧
      s'.mem (sBcd.i + 2) = sBcd.v_reg 5 % 10 ∧
      s'.pc = sBcd.pc + 2)
    ∧ sBcd.v_reg 5 / 100 = 1 ∧ sBcd.v_reg 5 % 100 / 10 = 5 ∧ sBcd.v_reg 5 % 10 = 7 :=
  ⟨ld_b_vx_bcd 0 sBcd 5 (by decide) (by decide), by decide, by decide, by decide⟩

/-- C9: on the composed `Memory` (reserved region plus `Rom`), `write_byte`
below `0x200` is the unconditional `ReservedMemory` panic (`none`, the
memory value unchanged), while every address in `0x200..=0xFFF` succeeds;
and the spec-modelled CPU-initiated `Fx33` store through this interface
aborts the same way when `I < 0x200` and succeeds when `I` and `I+2` lie
in `0x200..=0xFFF`. -/
theorem write_byte_reserved_fatal :
    (∀ (m : Memory) (v a : Nat), a < 0x200 → Memory.write_byte m v a = none)
    ∧ (∀ (m : Memory) (v a : Nat), 0x200 ≤ a → a ≤ 0xFFF →
        (Memory.write_byte m v a).isSome = true)
    ∧ (∀ (m : Memory) (i v : Nat), i < 0x200 → cpu_store_BCD m i v = none)
    ∧ (∀ (m : Memory) (i v : Nat), 0x200 ≤ i → i + 2 ≤ 0xFFF →
        (cpu_store_BCD m i v).isSome = true) := by
  have hw : ∀ (m : Memory) (v a : Nat), 0x200 ≤ a → a ≤ 0xFFF →
      Memory.write_byte m v a
        = some { m with rom := ⟨setf m.rom.data (a - 512) v⟩ } := by
    intro m v a h1 h2
    simp only [Memory.write_byte, Rom.write_byte]
    rw [if_neg (by omega), if_pos (by omega), Option.map_some']
  refine ⟨?_, ?_, ?_, ?_⟩
  · intro m v a ha
    simp only [Memory.write_byte]
    rw [if_pos (by omega)]
  · intro m v a h1 h2
    rw [hw m v a h1 h2]
    rfl
  · intro m i v hi
    simp only [cpu_store_BCD, Memory.write_byte]
    rw [if_pos (by omega)]
    rfl
  · intro m i v h1 h2
    simp only [cpu_store_BCD]
    rw [hw _ _ _ (by omega) (by omega), Option.some_bind,
      hw _ _ _ (by omega) (by omega), Option.some_bind,
      hw _ _ _ (by omega) (by omega)]
    rfl

/-- C9 witness: `write_byte_reserved_fatal` applied at `mem0` and the
concrete addresses 3 (reserved, fatal), `0x300` (writable), and the BCD
store at `I = 0x100` (fatal) and `I = 0x300` (succeeds). -/
theorem write_byte_reserved_fatal_witness :
    Memory.write_byte mem0 7 3 = none
    ∧ (Memory.write_byte mem0 7 0x300).isSome = true
    ∧ cpu_store_BCD mem0 0x100 157 = none
    ∧ (cpu_store_BCD mem0 0x300 157).isSome = true :=
  ⟨write_byte_reserved_fatal.1 mem0 7 3 (by decide),
   write_byte_reserved_fatal.2.1 mem0 7 0x300 (by decide) (by decide),
   write_byte_reserved_fatal.2.2.1 mem0 0x100 157 (by decide),
   write_byte_reserved_fatal.2.2.2 mem0 0x300 157 (by decide) (by decide)⟩

/-- C10: executing `00EE` with `sp = 0` aborts the step (the unsigned
decrement of `sp` panics), executing `2nnn` with `sp = 16` aborts the step
(the store `stack[16]` is out of bounds), and no successful step moves the
stack pointer outside `0..=16`: the stack depth invariant holds along
every non-aborting execution. -/
theorem stack_depth_safe :
    (∀ rnd (s : Chip8), decode (fetch_opcode s) = .RET → s.sp = 0 →
        fetch_decode_execute rnd s = none)
    ∧ (∀ rnd (s : Chip8) nnn, decode (fetch_opcode s) = .CALL_addr nnn → s.sp = 16 →
        fetch_decode_execute rnd s = none)
    ∧ (∀ rnd (s s' : Chip8), s.sp ≤ 16 → fetch_decode_execute rnd s = some s' →
        s'.sp ≤ 16) := by
  refine ⟨?_, ?_, ?_⟩
  · intro rnd s hdec hsp
    simp [fetch_decode_execute, execute_instruction, hdec, execute_RET, hsp]
  · intro rnd s nnn hdec hsp
    simp [fetch_decode_execute, execute_instruction, hdec, execute_CALL_addr, hsp]
  · intro rnd s s' hsp hstep
    rcases hdec : decode (fetch_opcode s) <;>
      simp only [fetch_decode_execute, execute_instruction, hdec, withPC,
        execute_CLS, execute_RET, execute_JP_addr, execute_CALL_addr,
        execute_SE_Vx_kk, execute_SNE_Vx_kk, execute_SE_Vx_Vy, execute_LD_Vx_kk,
        execute_ADD_Vx_kk, execute_LD_Vx_Vy, execute_OR_Vx_Vy, execute_AND_Vx_Vy,
        execute_XOR_Vx_Vy, execute_ADD_Vx_Vy, execute_SUB_Vx_Vy, execute_SHR_Vx,
        execute_SUBN_Vx_Vy, execute_SHL_Vx, execute_SNE_Vx_Vy, execute_LD_I_addr,
        execute_JP_V0_addr, execute_RND_Vx_kk, execute_DRW_Vx_Vy_n,
        execute_SKP_Vx, execute_SKNP_Vx, execute_LD_Vx_DT, execute_LD_Vx_K,
        execute_LD_DT_Vx, execute_LD_ST_Vx, execute_ADD_I_Vx, execute_LD_F_Vx,
        execute_LD_B_Vx, execute_LD_I_Vx, execute_LD_Vx_I,
        Option.map_eq_map, Option.map_eq_some'] at hstep
    case RET =>
      split at hstep
      · simp at hstep
      · rename_i heq
        obtain ⟨rfl⟩ := hstep
        split at heq
        · simp at heq
        · split at heq
          · simp only [Option.map_some', withPC, Option.some.injEq, Prod.mk.injEq] at heq
            obtain ⟨rfl, rfl⟩ := heq
            simp [tickTimers]; omega
          · simp at heq
    case CALL_addr nnn =>
      split at hstep
      · simp at hstep
      · rename_i heq
        obtain ⟨rfl⟩ := hstep
        split at heq
        · simp only [Option.map_some', withPC, Option.some.injEq, Prod.mk.injEq] at heq
          obtain ⟨rfl, rfl⟩ := heq
          rename_i hlt
          simp [tickTimers]; omega
        · simp at heq
    case LD_Vx_K x =>
      rcases hk : is_key_pressed s with _ | idx <;> simp only [hk] at hstep <;>
        (obtain ⟨rfl⟩ := hstep; simp [tickTimers]; omega)
    all_goals (obtain ⟨rfl⟩ := hstep; simp [tickTimers]; omega)

/-- C10 witness: `stack_depth_safe` applied at `sRet` (RET on empty stack
aborts), `sCall` (CALL on full stack aborts), and `s0` (a successful step
keeps `sp ≤ 16`). -/
theorem stack_depth_safe_witness :
    fetch_decode_execute 0 sRet = none
    ∧ fetch_decode_execute 0 sCall = none
    ∧ (tickTimers { s0 with pc := 0x202 }).sp ≤ 16 :=
  ⟨stack_depth_safe.1 0 sRet (by decide) (by decide),
   stack_depth_safe.2.1 0 sCall 0x345 (by decide) (by decide),
   stack_depth_safe.2.2 0 s0 (tickTimers { s0 with pc := 0x202 }) (by decide) rfl⟩

end Chippy
